import Mathlib

/-!
Shallow embedding of the StickIt task dashboard (src/app.py).

Modelling conventions:
* Python timestamps (`datetime.now().timestamp()`) are natural-number seconds;
  calendar dates (`datetime.now().date()`, the deadline date) are day indices,
  so `str(date)` / `pd.to_datetime` round-trips are identities and a date
  viewed as a datetime (midnight) is `day * daySecs`.
* `tasks.json` is modelled by `FileState`: absent, present-but-unparseable,
  or a parsed JSON array of task records.
* Task records are Python dicts with a fixed key set; dict equality
  (used by `tasks.remove`) is field-wise equality, i.e. `DecidableEq Task`.
* `status` and `priority` are stored as plain strings, exactly as in the
  JSON file; the UI widgets only ever supply members of `statusNames` /
  `priorityNames`, which the reachability relation records as side conditions.
-/

namespace StickIt

/-- Seconds per day, the conversion between timestamps and date indices. -/
def daySecs : Nat := 86400

/-- A task record as built by `add_task` in src/app.py (lines 38-47). -/
structure Task where
  id : Nat
  name : String
  description : String
  deadline : Nat
  created : Nat
  status : String
  priority : String
  attachment : String
deriving DecidableEq

/-- The state of the persisted file `tasks.json`. -/
inductive FileState where
  | missing
  | invalid
  | valid (tasks : List Task)
deriving DecidableEq

/-- The spec's error taxonomy (§7): ValidationError, NotFoundError, StorageError. -/
inductive StoreError where
  | validationError
  | notFoundError
  | storageError
deriving DecidableEq

/-- `load_tasks` (src/app.py lines 27-31): returns the parsed file if it
exists, `[]` if it does not; an unparseable file raises (uncaught
`json.JSONDecodeError`), surfaced as a `StorageError`. -/
def load_tasks : FileState → Except StoreError (List Task)
  | FileState.missing => Except.ok []
  | FileState.invalid => Except.error StoreError.storageError
  | FileState.valid l => Except.ok l

/-- `save_tasks` (src/app.py lines 33-35): overwrites the file with the
full collection. -/
def save_tasks (tasks : List Task) : FileState := FileState.valid tasks

/-- The in-memory collection together with the persisted file. -/
structure AppState where
  tasks : List Task
  file : FileState
deriving DecidableEq

/-- The three board statuses (src/app.py line 105). -/
def statusNames : List String := ["To Do", "In Progress", "Done"]

/-- The three priorities offered by the priority selectbox (line 63). -/
def priorityNames : List String := ["Low", "Medium", "High"]

/-- The task dict literal of `add_task`: id is the current timestamp,
created the current date, status defaults to To Do. -/
def mkTask (now : Nat) (name description : String) (deadline : Nat)
    (priority attachment_path : String) : Task :=
  { id := now, name := name, description := description, deadline := deadline,
    created := now / daySecs, status := "To Do", priority := priority,
    attachment := attachment_path }

/-- `add_task` (src/app.py lines 37-49): append the new task and persist. -/
def add_task (s : AppState) (now : Nat) (name description : String)
    (deadline : Nat) (priority attachment_path : String) : AppState :=
  let tasks := s.tasks ++ [mkTask now name description deadline priority attachment_path]
  { tasks := tasks, file := save_tasks tasks }

/-- The creation submission path (src/app.py lines 67-78): `if submitted and
name` guards `add_task`, so an empty name is rejected (Python string
truthiness) and nothing is added or saved; the spec calls this rejection a
ValidationError. -/
def create (s : AppState) (now : Nat) (name description : String)
    (deadline : Nat) (priority attachment_path : String) : Except StoreError AppState :=
  if name = "" then Except.error StoreError.validationError
  else Except.ok (add_task s now name description deadline priority attachment_path)

/-- Rewrite the first task whose id matches; the board widget keyed by a
task's id targets exactly that task's record. -/
def updateById (tasks : List Task) (i : Nat) (f : Task → Task) : List Task :=
  match tasks with
  | [] => []
  | t :: ts => if t.id = i then f t :: ts else t :: updateById ts i f

/-- The Save Changes handler body (src/app.py lines 145-148): overwrite
name, description, deadline and priority of the targeted task; the other
four fields are not touched. -/
def applyEdit (nm ds : String) (dl : Nat) (pr : String) (t : Task) : Task :=
  { t with name := nm, description := ds, deadline := dl, priority := pr }

/-- The Save Changes handler (src/app.py lines 144-151): edit the task
matching the id and persist; no widget exists for an absent id, so the
state is unchanged then. -/
def update (s : AppState) (i : Nat) (nm ds : String) (dl : Nat) (pr : String) : AppState :=
  match s.tasks.find? (fun t => t.id == i) with
  | none => s
  | some _ =>
      let tasks := updateById s.tasks i (applyEdit nm ds dl pr)
      { tasks := tasks, file := save_tasks tasks }

/-- The Update Status handler (src/app.py lines 153-157): only when the
selected status differs from the current one is the task rewritten and the
collection persisted. -/
def setStatus (s : AppState) (i : Nat) (v : String) : AppState :=
  match s.tasks.find? (fun t => t.id == i) with
  | none => s
  | some t =>
      if t.status = v then s
      else
        let tasks := updateById s.tasks i (fun u => { u with status := v })
        { tasks := tasks, file := save_tasks tasks }

/-- The priority change path: a Save Changes edit in which only the
priority field differs (the spec's `setPriority` convenience
specialization of `update`); always persists. -/
def setPriority (s : AppState) (i : Nat) (v : String) : AppState :=
  match s.tasks.find? (fun t => t.id == i) with
  | none => s
  | some _ =>
      let tasks := updateById s.tasks i (fun u => { u with priority := v })
      { tasks := tasks, file := save_tasks tasks }

/-- Python `list.remove`: drop the first element equal to the target
(dict equality is field-wise). -/
def removeFirst : List Task → Task → List Task
  | [], _ => []
  | u :: us, t => if u = t then us else u :: removeFirst us t

/-- The Delete Task handler (src/app.py lines 159-163): `tasks.remove(t)`
for the task matching the id, then persist; `remove` on an absent target
raises `ValueError`, the spec's NotFoundError. -/
def deleteById (s : AppState) (i : Nat) : Except StoreError AppState :=
  match s.tasks.find? (fun t => t.id == i) with
  | none => Except.error StoreError.notFoundError
  | some t =>
      let tasks := removeFirst s.tasks t
      Except.ok { tasks := tasks, file := save_tasks tasks }

/-- The "due soon" filter (src/app.py line 169): deadline, viewed as a
datetime, strictly after now and at most three days after now. -/
def upcoming_tasks (tasks : List Task) (now : Nat) : List Task :=
  tasks.filter (fun t =>
    decide (now < t.deadline * daySecs) && decide (t.deadline * daySecs ≤ now + 3 * daySecs))

/-- The overdue filter (src/app.py line 170): deadline strictly before now. -/
def overdue_tasks (tasks : List Task) (now : Nat) : List Task :=
  tasks.filter (fun t => decide (t.deadline * daySecs < now))

/-- A concrete task used to instantiate the theorems on concrete states. -/
def sampleTask : Task := mkTask 100 "a" "d" 5 "Low" ""

/-- A concrete one-task store state. -/
def sampleState : AppState := { tasks := [sampleTask], file := FileState.valid [sampleTask] }

/-- A second concrete task sharing `sampleTask`'s creation timestamp. -/
def collidedState : AppState := add_task sampleState 100 "b" "e" 6 "High" ""

/-- The collided state after an edit that blanks the first task's name. -/
def blankedState : AppState := update collidedState 100 "" "e" 6 "High"

/-! Helper lemmas about first-match search, rewrite and removal. -/

theorem find_first (p : Task → Bool) (l1 : List Task) (t : Task) (l2 : List Task)
    (h1 : ∀ u ∈ l1, p u = false) (h2 : p t = true) :
    (l1 ++ t :: l2).find? p = some t := by
  induction l1 with
  | nil => simp [List.find?, h2]
  | cons u us ih =>
      have hu : p u = false := h1 u (by simp)
      simp only [List.cons_append, List.find?, hu]
      exact ih fun v hv => h1 v (by simp [hv])

theorem updateById_append_first (l1 : List Task) (t : Task) (l2 : List Task) (i : Nat)
    (f : Task → Task) (h1 : ∀ u ∈ l1, u.id ≠ i) (h2 : t.id = i) :
    updateById (l1 ++ t :: l2) i f = l1 ++ f t :: l2 := by
  induction l1 with
  | nil => simp [updateById, h2]
  | cons u us ih =>
      have hu : u.id ≠ i := h1 u (by simp)
      simp only [List.cons_append, updateById, if_neg hu, List.cons.injEq, true_and]
      exact ih fun v hv => h1 v (by simp [hv])

/-- Decompose a collection at the first task carrying a given id: the code's
find-and-rewrite operations act exactly there. -/
theorem first_id_decomp (l : List Task) (i : Nat) (h : ∃ t ∈ l, t.id = i) :
    ∃ l1 t l2, l = l1 ++ t :: l2 ∧ (∀ u ∈ l1, u.id ≠ i) ∧ t.id = i ∧
      l.find? (fun u => u.id == i) = some t ∧
      ∀ f, updateById l i f = l1 ++ f t :: l2 := by
  induction l with
  | nil => simp at h
  | cons u us ih =>
      by_cases hu : u.id = i
      · refine ⟨[], u, us, by simp, by simp, hu, ?_, ?_⟩
        · simp [List.find?, hu]
        · intro f; simp [updateById, hu]
      · obtain ⟨t, ht, hti⟩ := h
        have htus : t ∈ us := by
          rcases List.mem_cons.mp ht with h1 | h1
          · exact absurd (h1 ▸ hti) hu
          · exact h1
        obtain ⟨l1, t', l2, heq, hl1, ht', hfind, hupd⟩ := ih ⟨t, htus, hti⟩
        refine ⟨u :: l1, t', l2, by simp [heq], ?_, ht', ?_, ?_⟩
        · intro v hv
          rcases List.mem_cons.mp hv with h1 | h1
          · exact h1 ▸ hu
          · exact hl1 v h1
        · have hub : (u.id == i) = false := beq_eq_false_iff_ne.mpr hu
          simp only [List.find?, hub]
          exact hfind
        · intro f
          simp only [updateById, if_neg hu, List.cons_append, List.cons.injEq, true_and]
          exact hupd f

theorem updateById_map_id (l : List Task) (i : Nat) (f : Task → Task)
    (hf : ∀ t, (f t).id = t.id) :
    (updateById l i f).map Task.id = l.map Task.id := by
  induction l with
  | nil => rfl
  | cons u us ih =>
      by_cases hu : u.id = i
      · simp [updateById, hu, hf]
      · simp [updateById, hu, ih]

theorem updateById_forall (l : List Task) (i : Nat) (f : Task → Task)
    {P : Task → Prop} (hl : ∀ t ∈ l, P t) (hf : ∀ t, P t → P (f t)) :
    ∀ t ∈ updateById l i f, P t := by
  induction l with
  | nil => simp [updateById]
  | cons u us ih =>
      by_cases hu : u.id = i
      · simp only [updateById, if_pos hu]
        intro t ht
        rcases List.mem_cons.mp ht with h1 | h1
        · exact h1 ▸ hf u (hl u (by simp))
        · exact hl t (by simp [h1])
      · simp only [updateById, if_neg hu]
        intro t ht
        rcases List.mem_cons.mp ht with h1 | h1
        · exact h1 ▸ hl u (by simp)
        · exact ih (fun v hv => hl v (by simp [hv])) t h1

theorem removeFirst_sublist (l : List Task) (t : Task) :
    (removeFirst l t).Sublist l := by
  induction l with
  | nil => simp [removeFirst]
  | cons u us ih =>
      by_cases hu : u = t
      · simp only [removeFirst, if_pos hu]
        exact List.sublist_cons_self u us
      · simp only [removeFirst, if_neg hu]
        exact List.Sublist.cons₂ u ih

/-- Python `list.remove` characterized: the first occurrence is excised and
everything else keeps its relative order. -/
theorem removeFirst_eq (l : List Task) (t : Task) (h : t ∈ l) :
    ∃ l1 l2, l = l1 ++ t :: l2 ∧ t ∉ l1 ∧ removeFirst l t = l1 ++ l2 := by
  induction l with
  | nil => simp at h
  | cons u us ih =>
      by_cases hu : u = t
      · exact ⟨[], us, by simp [hu], by simp, by simp [removeFirst, hu]⟩
      · have htus : t ∈ us := by
          rcases List.mem_cons.mp h with h1 | h1
          · exact absurd h1.symm hu
          · exact h1
        obtain ⟨l1, l2, heq, hnot, hrm⟩ := ih htus
        refine ⟨u :: l1, l2, by simp [heq], ?_, ?_⟩
        · intro hmem
          rcases List.mem_cons.mp hmem with h1 | h1
          · exact hu h1.symm
          · exact hnot h1
        · simp [removeFirst, hu, hrm]

/-! Reachable states and the spec's data-model invariants (§3). -/

/-- The spec's per-task invariants: enumerated status and priority,
non-empty name. -/
def TaskWF (t : Task) : Prop :=
  t.status ∈ statusNames ∧ t.priority ∈ priorityNames ∧ t.name ≠ ""

instance (t : Task) : Decidable (TaskWF t) :=
  inferInstanceAs (Decidable (t.status ∈ statusNames ∧ t.priority ∈ priorityNames ∧ t.name ≠ ""))

/-- The enumerated-values part of the invariant alone. -/
def EnumInv (s : AppState) : Prop :=
  ∀ t ∈ s.tasks, t.status ∈ statusNames ∧ t.priority ∈ priorityNames

instance (s : AppState) : Decidable (EnumInv s) :=
  inferInstanceAs (Decidable (∀ t ∈ s.tasks, t.status ∈ statusNames ∧ t.priority ∈ priorityNames))

/-- The spec's full collection invariant: unique ids plus per-task
well-formedness. -/
def StoreInv (s : AppState) : Prop :=
  (s.tasks.map Task.id).Nodup ∧ ∀ t ∈ s.tasks, TaskWF t

instance (s : AppState) : Decidable (StoreInv s) :=
  inferInstanceAs (Decidable ((s.tasks.map Task.id).Nodup ∧ ∀ t ∈ s.tasks, TaskWF t))

/-- One user action, as the UI allows it: the status and priority
selectboxes only offer the enumerated values, but the creation timestamp is
whatever the clock returns and an edit may submit any text (including the
empty string) as the new name. -/
inductive Step : AppState → AppState → Prop where
  | createStep (s : AppState) (now : Nat) (nm ds : String) (dl : Nat) (pr att : String)
      (s' : AppState) (hpr : pr ∈ priorityNames)
      (h : create s now nm ds dl pr att = Except.ok s') : Step s s'
  | updateStep (s : AppState) (i : Nat) (nm ds : String) (dl : Nat) (pr : String)
      (hpr : pr ∈ priorityNames) : Step s (update s i nm ds dl pr)
  | setStatusStep (s : AppState) (i : Nat) (v : String) (hv : v ∈ statusNames) :
      Step s (setStatus s i v)
  | setPriorityStep (s : AppState) (i : Nat) (v : String) (hv : v ∈ priorityNames) :
      Step s (setPriority s i v)
  | deleteStep (s : AppState) (i : Nat) (s' : AppState)
      (h : deleteById s i = Except.ok s') : Step s s'

/-- States reachable from the empty store by user actions. -/
inductive Reachable : AppState → Prop where
  | init : Reachable { tasks := [], file := FileState.missing }
  | step {s s' : AppState} (hr : Reachable s) (hs : Step s s') : Reachable s'

/-- A user action under benign conditions: the creation timestamp does not
collide with an existing id and edits never blank the name. -/
inductive GoodStep : AppState → AppState → Prop where
  | createStep (s : AppState) (now : Nat) (nm ds : String) (dl : Nat) (pr att : String)
      (s' : AppState) (hpr : pr ∈ priorityNames) (hfresh : ∀ t ∈ s.tasks, t.id ≠ now)
      (h : create s now nm ds dl pr att = Except.ok s') : GoodStep s s'
  | updateStep (s : AppState) (i : Nat) (nm ds : String) (dl : Nat) (pr : String)
      (hpr : pr ∈ priorityNames) (hnm : nm ≠ "") : GoodStep s (update s i nm ds dl pr)
  | setStatusStep (s : AppState) (i : Nat) (v : String) (hv : v ∈ statusNames) :
      GoodStep s (setStatus s i v)
  | setPriorityStep (s : AppState) (i : Nat) (v : String) (hv : v ∈ priorityNames) :
      GoodStep s (setPriority s i v)
  | deleteStep (s : AppState) (i : Nat) (s' : AppState)
      (h : deleteById s i = Except.ok s') : GoodStep s s'

/-- States reachable when every creation uses a fresh timestamp and every
edit keeps the name non-empty. -/
inductive GoodReachable : AppState → Prop where
  | init : GoodReachable { tasks := [], file := FileState.missing }
  | step {s s' : AppState} (hr : GoodReachable s) (hs : GoodStep s s') : GoodReachable s'

/-- Successful creation means the name was non-empty and `add_task` ran. -/
theorem create_ok {s : AppState} {now : Nat} {nm ds : String} {dl : Nat} {pr att : String}
    {s' : AppState} (h : create s now nm ds dl pr att = Except.ok s') :
    nm ≠ "" ∧ s' = add_task s now nm ds dl pr att := by
  by_cases hnm : nm = ""
  · simp [create, hnm] at h
  · simp only [create, if_neg hnm, Except.ok.injEq] at h
    exact ⟨hnm, h.symm⟩

/-- Successful deletion means a task with the id was found and the first
equal record removed. -/
theorem deleteById_ok {s : AppState} {i : Nat} {s' : AppState}
    (h : deleteById s i = Except.ok s') :
    ∃ t, s.tasks.find? (fun u => u.id == i) = some t ∧
      s' = { tasks := removeFirst s.tasks t, file := save_tasks (removeFirst s.tasks t) } := by
  rcases hfind : s.tasks.find? (fun u => u.id == i) with _ | t
  · simp [deleteById, hfind] at h
  · simp only [deleteById, hfind, Except.ok.injEq] at h
    exact ⟨t, hfind, h.symm⟩

/-- Every user action keeps statuses and priorities inside the enumerated
sets: the selectboxes never offer anything else. -/
theorem enumInv_step {s s' : AppState} (h : EnumInv s) (hs : Step s s') : EnumInv s' := by
  cases hs with
  | createStep now nm ds dl pr att s' hpr hc =>
      obtain ⟨hnm, rfl⟩ := create_ok hc
      intro t ht
      have ht' : t ∈ s.tasks ++ [mkTask now nm ds dl pr att] := ht
      rcases List.mem_append.mp ht' with h1 | h1
      · exact h t h1
      · have heq : t = mkTask now nm ds dl pr att := by simpa using h1
        subst heq
        exact ⟨show "To Do" ∈ statusNames by decide, hpr⟩
  | updateStep i nm ds dl pr hpr =>
      rcases hfind : s.tasks.find? (fun t => t.id == i) with _ | t
      · simpa [update, hfind] using h
      · intro u hu
        have hu' : u ∈ updateById s.tasks i (applyEdit nm ds dl pr) := by
          simpa [update, hfind] using hu
        refine updateById_forall s.tasks i (applyEdit nm ds dl pr) h ?_ u hu'
        intro t ⟨h1, _⟩
        exact ⟨h1, hpr⟩
  | setStatusStep i v hv =>
      rcases hfind : s.tasks.find? (fun t => t.id == i) with _ | t
      · simpa [setStatus, hfind] using h
      · by_cases hst : t.status = v
        · simpa [setStatus, hfind, hst] using h
        · intro u hu
          have hu' : u ∈ updateById s.tasks i (fun u => { u with status := v }) := by
            simpa [setStatus, hfind, hst] using hu
          refine updateById_forall s.tasks i _ h ?_ u hu'
          intro t ⟨_, h2⟩
          exact ⟨hv, h2⟩
  | setPriorityStep i v hv =>
      rcases hfind : s.tasks.find? (fun t => t.id == i) with _ | t
      · simpa [setPriority, hfind] using h
      · intro u hu
        have hu' : u ∈ updateById s.tasks i (fun u => { u with priority := v }) := by
          simpa [setPriority, hfind] using hu
        refine updateById_forall s.tasks i _ h ?_ u hu'
        intro t ⟨h1, _⟩
        exact ⟨h1, hv⟩
  | deleteStep i s' hc =>
      obtain ⟨t, hfind, rfl⟩ := deleteById_ok hc
      intro u hu
      exact h u ((removeFirst_sublist s.tasks t).subset hu)

/-- Under benign conditions every user action also preserves id uniqueness
and non-empty names. -/
theorem storeInv_goodStep {s s' : AppState} (h : StoreInv s) (hs : GoodStep s s') :
    StoreInv s' := by
  obtain ⟨hnd, hwf⟩ := h
  cases hs with
  | createStep now nm ds dl pr att s' hpr hfresh hc =>
      obtain ⟨hnm, rfl⟩ := create_ok hc
      constructor
      · have hmap : (add_task s now nm ds dl pr att).tasks.map Task.id
            = s.tasks.map Task.id ++ [now] := by
          simp [add_task, mkTask]
        rw [hmap, List.nodup_append]
        refine ⟨hnd, by simp, ?_⟩
        intro a ha hb
        have hb' : a = now := by simpa using hb
        rcases List.mem_map.mp ha with ⟨t, htmem, hta⟩
        exact hfresh t htmem (hta.trans hb')
      · intro t ht
        have ht' : t ∈ s.tasks ++ [mkTask now nm ds dl pr att] := ht
        rcases List.mem_append.mp ht' with h1 | h1
        · exact hwf t h1
        · have heq : t = mkTask now nm ds dl pr att := by simpa using h1
          subst heq
          exact ⟨show "To Do" ∈ statusNames by decide, hpr, hnm⟩
  | updateStep i nm ds dl pr hpr hnm =>
      rcases hfind : s.tasks.find? (fun t => t.id == i) with _ | t
      · simpa [StoreInv, update, hfind] using ⟨hnd, hwf⟩
      · constructor
        · have hmap : (update s i nm ds dl pr).tasks.map Task.id = s.tasks.map Task.id := by
            have : (update s i nm ds dl pr).tasks
                = updateById s.tasks i (applyEdit nm ds dl pr) := by
              simp [update, hfind]
            rw [this]
            exact updateById_map_id s.tasks i _ (fun t => rfl)
          rw [hmap]; exact hnd
        · intro u hu
          have hu' : u ∈ updateById s.tasks i (applyEdit nm ds dl pr) := by
            simpa [update, hfind] using hu
          refine updateById_forall s.tasks i (applyEdit nm ds dl pr) hwf ?_ u hu'
          intro t ⟨h1, _, _⟩
          exact ⟨h1, hpr, hnm⟩
  | setStatusStep i v hv =>
      rcases hfind : s.tasks.find? (fun t => t.id == i) with _ | t
      · simpa [StoreInv, setStatus, hfind] using ⟨hnd, hwf⟩
      · by_cases hst : t.status = v
        · simpa [StoreInv, setStatus, hfind, hst] using ⟨hnd, hwf⟩
        · constructor
          · have hmap : (setStatus s i v).tasks.map Task.id = s.tasks.map Task.id := by
              have : (setStatus s i v).tasks
                  = updateById s.tasks i (fun u => { u with status := v }) := by
                simp [setStatus, hfind, hst]
              rw [this]
              exact updateById_map_id s.tasks i _ (fun t => rfl)
            rw [hmap]; exact hnd
          · intro u hu
            have hu' : u ∈ updateById s.tasks i (fun u => { u with status := v }) := by
              simpa [setStatus, hfind, hst] using hu
            refine updateById_forall s.tasks i _ hwf ?_ u hu'
            intro t ⟨_, h2, h3⟩
            exact ⟨hv, h2, h3⟩
  | setPriorityStep i v hv =>
      rcases hfind : s.tasks.find? (fun t => t.id == i) with _ | t
      · simpa [StoreInv, setPriority, hfind] using ⟨hnd, hwf⟩
      · constructor
        · have hmap : (setPriority s i v).tasks.map Task.id = s.tasks.map Task.id := by
            have : (setPriority s i v).tasks
                = updateById s.tasks i (fun u => { u with priority := v }) := by
              simp [setPriority, hfind]
            rw [this]
            exact updateById_map_id s.tasks i _ (fun t => rfl)
          rw [hmap]; exact hnd
        · intro u hu
          have hu' : u ∈ updateById s.tasks i (fun u => { u with priority := v }) := by
            simpa [setPriority, hfind] using hu
          refine updateById_forall s.tasks i _ hwf ?_ u hu'
          intro t ⟨h1, _, h3⟩
          exact ⟨h1, hv, h3⟩
  | deleteStep i s' hc =>
      obtain ⟨t, hfind, rfl⟩ := deleteById_ok hc
      constructor
      · exact hnd.sublist ((removeFirst_sublist s.tasks t).map Task.id)
      · intro u hu
        exact hwf u ((removeFirst_sublist s.tasks t).subset hu)

theorem removeFirst_append_first (l1 : List Task) (t : Task) (l2 : List Task)
    (h1 : ∀ u ∈ l1, u ≠ t) : removeFirst (l1 ++ t :: l2) t = l1 ++ l2 := by
  induction l1 with
  | nil => simp [removeFirst]
  | cons u us ih =>
      have hu : u ≠ t := h1 u (by simp)
      simp only [List.cons_append, removeFirst, if_neg hu, List.cons.injEq, true_and]
      exact ih fun v hv => h1 v (by simp [hv])

/-! The claims. -/

/-- C2: submitting the creation form with an empty name fails with a
ValidationError; no task is added and the persisted file is untouched (the
operation returns no new state at all). -/
theorem createEmptyNameFails (s : AppState) (now : Nat) (ds : String) (dl : Nat)
    (pr att : String) :
    create s now "" ds dl pr att = Except.error StoreError.validationError := by
  simp [create]

/-- C7: on any persisted file state that `load_tasks` can read, saving
what was loaded leaves the file's semantic content — the task collection
it denotes — unchanged; when the file actually existed and parsed, the
file state itself is reproduced exactly. -/
theorem saveAllLoadAllRoundTrip (fs : FileState) (l : List Task)
    (h : load_tasks fs = Except.ok l) :
    load_tasks (save_tasks l) = load_tasks fs ∧
    (fs ≠ FileState.missing → save_tasks l = fs) := by
  cases fs with
  | missing =>
      simp only [load_tasks, Except.ok.injEq] at h
      rw [← h]
      exact ⟨rfl, fun hne => absurd rfl hne⟩
  | invalid => simp [load_tasks] at h
  | valid l' =>
      simp only [load_tasks, Except.ok.injEq] at h
      rw [← h]
      exact ⟨rfl, fun _ => rfl⟩

/-- Witness for C7 at a concrete one-task file. -/
theorem saveAllLoadAllRoundTrip_witness :
    load_tasks (save_tasks [sampleTask]) = load_tasks (FileState.valid [sampleTask]) ∧
    (FileState.valid [sampleTask] ≠ FileState.missing →
      save_tasks [sampleTask] = FileState.valid [sampleTask]) :=
  saveAllLoadAllRoundTrip (FileState.valid [sampleTask]) [sampleTask] rfl

/-- C8: `load_tasks` returns the ordered stored sequence, the empty
sequence when no file exists, and a StorageError when the file exists but
cannot be parsed. -/
theorem loadAllSpec :
    load_tasks FileState.missing = Except.ok [] ∧
    load_tasks FileState.invalid = Except.error StoreError.storageError ∧
    ∀ l : List Task, load_tasks (FileState.valid l) = Except.ok l :=
  ⟨rfl, rfl, fun _ => rfl⟩

/-- C10: `tasks.remove(t)` removes exactly the first element of the
collection equal to the target and keeps the relative order of all
remaining tasks: the result is the original sequence with that single
element excised. -/
theorem deleteRemovesFirstEqual (l : List Task) (t : Task) (h : t ∈ l) :
    ∃ l1 l2, l = l1 ++ t :: l2 ∧ t ∉ l1 ∧ removeFirst l t = l1 ++ l2 :=
  removeFirst_eq l t h

/-- Witness for C10 on a concrete two-task collection. -/
theorem deleteRemovesFirstEqual_witness :
    ∃ l1 l2, [sampleTask, mkTask 3 "b" "e" 4 "High" ""]
        = l1 ++ mkTask 3 "b" "e" 4 "High" "" :: l2 ∧
      mkTask 3 "b" "e" 4 "High" "" ∉ l1 ∧
      removeFirst [sampleTask, mkTask 3 "b" "e" 4 "High" ""] (mkTask 3 "b" "e" 4 "High" "")
        = l1 ++ l2 :=
  deleteRemovesFirstEqual [sampleTask, mkTask 3 "b" "e" 4 "High" ""]
    (mkTask 3 "b" "e" 4 "High" "") (by decide)

/-- C9: the "due within 3 days" list holds exactly the tasks whose
deadline (as a datetime) is strictly after now and at most three days
after now, the overdue list exactly those strictly before now; with two
tasks due tomorrow and in ten days, only the first is due soon. -/
theorem deadlineFiltersSpec (tasks : List Task) (now : Nat) :
    (∀ t, t ∈ upcoming_tasks tasks now ↔
        t ∈ tasks ∧ now < t.deadline * daySecs ∧ t.deadline * daySecs ≤ now + 3 * daySecs) ∧
    (∀ t, t ∈ overdue_tasks tasks now ↔ t ∈ tasks ∧ t.deadline * daySecs < now) ∧
    (∀ t1 t2, tasks = [t1, t2] → t1.deadline = now / daySecs + 1 →
        t2.deadline = now / daySecs + 10 → upcoming_tasks tasks now = [t1]) := by
  refine ⟨?_, ?_, ?_⟩
  · intro t
    simp [upcoming_tasks, List.mem_filter, and_assoc]
  · intro t
    simp [overdue_tasks, List.mem_filter]
  · rintro t1 t2 rfl h1 h2
    have c1 : now < (now / daySecs + 1) * daySecs := by
      simp only [daySecs]; omega
    have c2 : (now / daySecs + 1) * daySecs ≤ now + 3 * daySecs := by
      simp only [daySecs]; omega
    have c3' : ¬ ((now / daySecs + 10) * daySecs ≤ now + 3 * daySecs) := by
      simp only [daySecs]; omega
    have c3 : (decide (now < (now / daySecs + 10) * daySecs)
        && decide ((now / daySecs + 10) * daySecs ≤ now + 3 * daySecs)) = false := by
      simp [c3']
    simp [upcoming_tasks, List.filter, h1, h2, c1, c2, c3]

/-- Witness for C9: the scenario with deadlines today+1 and today+10. -/
theorem deadlineFiltersSpec_witness :
    upcoming_tasks [mkTask 1 "a" "d" 1 "Low" "", mkTask 2 "b" "e" 10 "Low" ""] 1000
      = [mkTask 1 "a" "d" 1 "Low" ""] :=
  (deadlineFiltersSpec [mkTask 1 "a" "d" 1 "Low" "", mkTask 2 "b" "e" 10 "Low" ""] 1000).2.2
    (mkTask 1 "a" "d" 1 "Low" "") (mkTask 2 "b" "e" 10 "Low" "") rfl (by decide) (by decide)

/-- C1 (amended): for a valid input whose creation timestamp does not
collide with any existing id, `create` appends a task whose id is the
current timestamp — then unique across the collection — with status
To Do and `created` the current date, all other fields matching the
input, and persists; loading afterwards yields the collection with
exactly that one task more. -/
theorem createSpecFresh (s : AppState) (now : Nat) (nm ds : String) (dl : Nat)
    (pr att : String) (hnm : nm ≠ "") (hfresh : ∀ t ∈ s.tasks, t.id ≠ now) :
    ∃ s', create s now nm ds dl pr att = Except.ok s' ∧
      s'.tasks = s.tasks ++ [mkTask now nm ds dl pr att] ∧
      s'.tasks.length = s.tasks.length + 1 ∧
      (mkTask now nm ds dl pr att).id = now ∧
      (mkTask now nm ds dl pr att).name = nm ∧
      (mkTask now nm ds dl pr att).description = ds ∧
      (mkTask now nm ds dl pr att).deadline = dl ∧
      (mkTask now nm ds dl pr att).priority = pr ∧
      (mkTask now nm ds dl pr att).attachment = att ∧
      (mkTask now nm ds dl pr att).status = "To Do" ∧
      (mkTask now nm ds dl pr att).created = now / daySecs ∧
      s'.tasks.countP (fun t => t.id == now) = 1 ∧
      s'.file = save_tasks s'.tasks ∧
      load_tasks s'.file = Except.ok s'.tasks := by
  refine ⟨add_task s now nm ds dl pr att, by simp [create, hnm], rfl, by simp [add_task],
    rfl, rfl, rfl, rfl, rfl, rfl, rfl, rfl, ?_, rfl, rfl⟩
  have h0 : s.tasks.countP (fun t => t.id == now) = 0 :=
    List.countP_eq_zero.mpr fun t ht => by simpa using hfresh t ht
  have happ : (add_task s now nm ds dl pr att).tasks
      = s.tasks ++ [mkTask now nm ds dl pr att] := rfl
  rw [happ, List.countP_append, h0]
  simp [mkTask]

/-- Witness for C1 on the empty store. -/
theorem createSpecFresh_witness :
    ∃ s', create { tasks := [], file := FileState.missing } 100 "a" "d" 5 "Low" ""
        = Except.ok s' ∧
      s'.tasks = [] ++ [mkTask 100 "a" "d" 5 "Low" ""] ∧
      s'.tasks.length = List.length ([] : List Task) + 1 ∧
      (mkTask 100 "a" "d" 5 "Low" "").id = 100 ∧
      (mkTask 100 "a" "d" 5 "Low" "").name = "a" ∧
      (mkTask 100 "a" "d" 5 "Low" "").description = "d" ∧
      (mkTask 100 "a" "d" 5 "Low" "").deadline = 5 ∧
      (mkTask 100 "a" "d" 5 "Low" "").priority = "Low" ∧
      (mkTask 100 "a" "d" 5 "Low" "").attachment = "" ∧
      (mkTask 100 "a" "d" 5 "Low" "").status = "To Do" ∧
      (mkTask 100 "a" "d" 5 "Low" "").created = 100 / daySecs ∧
      s'.tasks.countP (fun t => t.id == 100) = 1 ∧
      s'.file = save_tasks s'.tasks ∧
      load_tasks s'.file = Except.ok s'.tasks :=
  createSpecFresh { tasks := [], file := FileState.missing } 100 "a" "d" 5 "Low" ""
    (by decide) (by simp)

/-- Counterexample to C1 as stated: creating at a timestamp equal to an
existing task's id yields two tasks with the same id, so the new id is not
unique across the collection. -/
theorem createTimestampCollision :
    create sampleState 100 "b" "e" 6 "High" "" = Except.ok collidedState ∧
    ¬ (collidedState.tasks.map Task.id).Nodup ∧
    collidedState.tasks.countP (fun t => t.id == 100) = 2 :=
  ⟨rfl, by decide, by decide⟩

/-- C3: an edit of an existing task rewrites exactly the four edited
fields (name, description, deadline, priority) of the task matching the
id, leaves its id, created, status and attachment fields and every other
task untouched, and persists the result. -/
theorem updateFrameSpec (s : AppState) (i : Nat) (nm ds : String) (dl : Nat) (pr : String)
    (hmem : ∃ t ∈ s.tasks, t.id = i) (hnd : (s.tasks.map Task.id).Nodup) :
    ∃ l1 t l2, s.tasks = l1 ++ t :: l2 ∧ t.id = i ∧
      (∀ u ∈ l1, u.id ≠ i) ∧ (∀ u ∈ l2, u.id ≠ i) ∧
      (update s i nm ds dl pr).tasks = l1 ++ applyEdit nm ds dl pr t :: l2 ∧
      (applyEdit nm ds dl pr t).name = nm ∧
      (applyEdit nm ds dl pr t).description = ds ∧
      (applyEdit nm ds dl pr t).deadline = dl ∧
      (applyEdit nm ds dl pr t).priority = pr ∧
      (applyEdit nm ds dl pr t).id = t.id ∧
      (applyEdit nm ds dl pr t).created = t.created ∧
      (applyEdit nm ds dl pr t).status = t.status ∧
      (applyEdit nm ds dl pr t).attachment = t.attachment ∧
      (update s i nm ds dl pr).file = save_tasks (update s i nm ds dl pr).tasks ∧
      load_tasks (update s i nm ds dl pr).file = Except.ok (update s i nm ds dl pr).tasks := by
  obtain ⟨l1, t, l2, heq, hl1, hti, hfind, hupd⟩ := first_id_decomp s.tasks i hmem
  have hnd' : ((l1 ++ t :: l2).map Task.id).Nodup := heq ▸ hnd
  rw [List.map_append, List.map_cons, List.nodup_append] at hnd'
  have htid : t.id ∉ l2.map Task.id := (List.nodup_cons.mp hnd'.2.1).1
  have hl2 : ∀ u ∈ l2, u.id ≠ i := by
    intro u hu hui
    exact htid (List.mem_map.mpr ⟨u, hu, hui.trans hti.symm⟩)
  have htasks : (update s i nm ds dl pr).tasks = l1 ++ applyEdit nm ds dl pr t :: l2 := by
    simp [update, hfind, hupd (applyEdit nm ds dl pr)]
  have hfile : (update s i nm ds dl pr).file
      = save_tasks (update s i nm ds dl pr).tasks := by
    simp [update, hfind]
  exact ⟨l1, t, l2, heq, hti, hl1, hl2, htasks, rfl, rfl, rfl, rfl, rfl, rfl, rfl, rfl,
    hfile, by rw [hfile]; rfl⟩

/-- Witness for C3 on the concrete one-task store. -/
theorem updateFrameSpec_witness :
    ∃ l1 t l2, sampleState.tasks = l1 ++ t :: l2 ∧ t.id = 100 ∧
      (∀ u ∈ l1, u.id ≠ 100) ∧ (∀ u ∈ l2, u.id ≠ 100) ∧
      (update sampleState 100 "b" "e" 6 "High").tasks
        = l1 ++ applyEdit "b" "e" 6 "High" t :: l2 ∧
      (applyEdit "b" "e" 6 "High" t).name = "b" ∧
      (applyEdit "b" "e" 6 "High" t).description = "e" ∧
      (applyEdit "b" "e" 6 "High" t).deadline = 6 ∧
      (applyEdit "b" "e" 6 "High" t).priority = "High" ∧
      (applyEdit "b" "e" 6 "High" t).id = t.id ∧
      (applyEdit "b" "e" 6 "High" t).created = t.created ∧
      (applyEdit "b" "e" 6 "High" t).status = t.status ∧
      (applyEdit "b" "e" 6 "High" t).attachment = t.attachment ∧
      (update sampleState 100 "b" "e" 6 "High").file
        = save_tasks (update sampleState 100 "b" "e" 6 "High").tasks ∧
      load_tasks (update sampleState 100 "b" "e" 6 "High").file
        = Except.ok (update sampleState 100 "b" "e" 6 "High").tasks :=
  updateFrameSpec sampleState 100 "b" "e" 6 "High" (by decide) (by decide)

/-- C4: deleting an existing id removes it, so the reloaded collection has
no task with that id and is one shorter; deleting a nonexistent id fails
with a NotFoundError, and — the operation producing no new state — leaves
the in-memory and persisted collection unchanged. Ids are assumed unique
in the starting collection, the spec's data-model invariant. -/
theorem deleteByIdSpec (s : AppState) (i : Nat) (hnd : (s.tasks.map Task.id).Nodup) :
    ((∃ t ∈ s.tasks, t.id = i) →
      ∃ s', deleteById s i = Except.ok s' ∧ (∀ u ∈ s'.tasks, u.id ≠ i) ∧
        s'.tasks.length + 1 = s.tasks.length ∧
        load_tasks s'.file = Except.ok s'.tasks) ∧
    ((∀ t ∈ s.tasks, t.id ≠ i) → deleteById s i = Except.error StoreError.notFoundError) := by
  constructor
  · intro hmem
    obtain ⟨l1, t, l2, heq, hl1, hti, hfind, _⟩ := first_id_decomp s.tasks i hmem
    have hnd' : ((l1 ++ t :: l2).map Task.id).Nodup := heq ▸ hnd
    rw [List.map_append, List.map_cons, List.nodup_append] at hnd'
    have htid : t.id ∉ l2.map Task.id := (List.nodup_cons.mp hnd'.2.1).1
    have hl2 : ∀ u ∈ l2, u.id ≠ i := fun u hu hui =>
      htid (List.mem_map.mpr ⟨u, hu, hui.trans hti.symm⟩)
    have hne : ∀ u ∈ l1, u ≠ t := fun u hu he => hl1 u hu (he ▸ hti)
    have hrm : removeFirst s.tasks t = l1 ++ l2 := by
      rw [heq]; exact removeFirst_append_first l1 t l2 hne
    refine ⟨{ tasks := l1 ++ l2, file := save_tasks (l1 ++ l2) }, ?_, ?_, ?_, rfl⟩
    · simp [deleteById, hfind, hrm]
    · intro u hu
      rcases List.mem_append.mp hu with h1 | h1
      · exact hl1 u h1
      · exact hl2 u h1
    · simp [heq]
      omega
  · intro hnone
    have hfind : s.tasks.find? (fun u => u.id == i) = none :=
      List.find?_eq_none.mpr fun u hu => by simpa using hnone u hu
    simp [deleteById, hfind]

/-- Witness for C4 on the concrete one-task store. -/
theorem deleteByIdSpec_witness :
    ((∃ t ∈ sampleState.tasks, t.id = 100) →
      ∃ s', deleteById sampleState 100 = Except.ok s' ∧ (∀ u ∈ s'.tasks, u.id ≠ 100) ∧
        s'.tasks.length + 1 = sampleState.tasks.length ∧
        load_tasks s'.file = Except.ok s'.tasks) ∧
    ((∀ t ∈ sampleState.tasks, t.id ≠ 100) →
      deleteById sampleState 100 = Except.error StoreError.notFoundError) :=
  deleteByIdSpec sampleState 100 (by decide)

/-- C6: re-applying the same status change or the same priority change is
a no-op: the in-memory collection and the persisted file end up exactly as
after a single application. -/
theorem setStatusSetPriorityIdem (s : AppState) (i : Nat) (v w : String)
    (hmem : ∃ t ∈ s.tasks, t.id = i) :
    setStatus (setStatus s i v) i v = setStatus s i v ∧
    setPriority (setPriority s i w) i w = setPriority s i w := by
  obtain ⟨l1, t, l2, heq, hl1, hti, hfind, hupd⟩ := first_id_decomp s.tasks i hmem
  have hl1b : ∀ u ∈ l1, (u.id == i) = false := fun u hu => beq_eq_false_iff_ne.mpr (hl1 u hu)
  constructor
  · by_cases hst : t.status = v
    · have h1 : setStatus s i v = s := by simp [setStatus, hfind, hst]
      rw [h1]
      exact h1
    · have e1 : setStatus s i v
          = { tasks := l1 ++ { t with status := v } :: l2,
              file := save_tasks (l1 ++ { t with status := v } :: l2) } := by
        simp [setStatus, hfind, hst, hupd (fun u => { u with status := v })]
      have e2 : (l1 ++ { t with status := v } :: l2).find? (fun u => u.id == i)
          = some { t with status := v } :=
        find_first _ l1 _ l2 hl1b (by simp [hti])
      rw [e1]
      simp [setStatus, e2]
  · have e1 : setPriority s i w
        = { tasks := l1 ++ { t with priority := w } :: l2,
            file := save_tasks (l1 ++ { t with priority := w } :: l2) } := by
      simp [setPriority, hfind, hupd (fun u => { u with priority := w })]
    have e2 : (l1 ++ { t with priority := w } :: l2).find? (fun u => u.id == i)
        = some { t with priority := w } :=
      find_first _ l1 _ l2 hl1b (by simp [hti])
    have e3 : updateById (l1 ++ { t with priority := w } :: l2) i
        (fun u => { u with priority := w }) = l1 ++ { t with priority := w } :: l2 :=
      updateById_append_first l1 { t with priority := w } l2 i
        (fun u => { u with priority := w }) hl1 hti
    rw [e1]
    simp [setPriority, e2, e3]

/-- Witness for C6 on the concrete one-task store. -/
theorem setStatusSetPriorityIdem_witness :
    setStatus (setStatus sampleState 100 "Done") 100 "Done"
      = setStatus sampleState 100 "Done" ∧
    setPriority (setPriority sampleState 100 "High") 100 "High"
      = setPriority sampleState 100 "High" :=
  setStatusSetPriorityIdem sampleState 100 "Done" "High" (by decide)

/-- C5 (amended): every reachable state keeps statuses and priorities
inside the enumerated sets; along sequences in which every creation
timestamp differs from all existing ids and every edit submits a non-empty
name, ids additionally stay unique across the collection and names stay
non-empty. -/
theorem reachableInvariants :
    (∀ s, Reachable s → EnumInv s) ∧ (∀ s, GoodReachable s → StoreInv s) := by
  constructor
  · intro s hr
    induction hr with
    | init => intro t ht; simp at ht
    | step hr hs ih => exact enumInv_step ih hs
  · intro s hr
    induction hr with
    | init =>
        refine ⟨by simp, ?_⟩
        intro t ht
        simp at ht
    | step hr hs ih => exact storeInv_goodStep ih hs

/-- Witness for C5 at a concrete reachable one-task state. -/
theorem reachableInvariants_witness :
    EnumInv sampleState ∧ StoreInv sampleState :=
  ⟨reachableInvariants.1 sampleState
      (Reachable.step Reachable.init
        (Step.createStep { tasks := [], file := FileState.missing } 100 "a" "d" 5 "Low" ""
          sampleState (by decide) rfl)),
    reachableInvariants.2 sampleState
      (GoodReachable.step GoodReachable.init
        (GoodStep.createStep { tasks := [], file := FileState.missing } 100 "a" "d" 5 "Low" ""
          sampleState (by decide) (by simp) rfl))⟩

/-- Counterexample to C5 as stated: a reachable state — two creations
within the same timestamp second, then an edit blanking the first task's
name — carries a duplicated id and an empty name. -/
theorem reachableInvariantViolation :
    Reachable blankedState ∧ ¬ StoreInv blankedState := by
  constructor
  · have h1 : Reachable sampleState :=
      Reachable.step Reachable.init
        (Step.createStep { tasks := [], file := FileState.missing } 100 "a" "d" 5 "Low" ""
          sampleState (by decide) rfl)
    have h2 : Reachable collidedState :=
      Reachable.step h1
        (Step.createStep sampleState 100 "b" "e" 6 "High" "" collidedState (by decide) rfl)
    exact Reachable.step h2 (Step.updateStep collidedState 100 "" "e" 6 "High" (by decide))
  · decide

end StickIt
